import Mathlib

/-!
Verification of the Bluetooth command-delivery core of the vibe-link
repository against its natural-language specification.

The definitions below are a shallow embedding of the Rust sources:

* `BleUtil.*`        — the bit-exact codec in `src/bt_generic.rs`
  (`whitening_init`, `whitening_encode`, `check_crc16`, `invert_8`,
  `invert_16`, `get_rf_payload`, `get_ble_command`);
* `BtGeneric.*`      — the broadcast actor's speed→command table, payload
  assembly and advertisement replacement in
  `BluetoothGenericService::ble_thread` (`src/bt_generic.rs`), whose
  advertisement replacement order matches
  `BleAdvertiserLinux::send` (`src/bluetooth/adv_linux.rs`);
* `Gatt.*`           — the GATT actor's command processing and the debounced
  `send_speed` in `src/bluetooth/gatt.rs`.

Machine integers are modelled as `Nat` with explicit `% 2 ^ w` where
overflow can occur; byte buffers are `List Nat`.
-/

namespace BleUtil

/-- The 7-bit whitening context (`ctx: [u8; 7]` in the source), one field
per array slot. All values produced by the code are single bits (0 or 1). -/
structure WhitCtx where
  s0 : Nat
  s1 : Nat
  s2 : Nat
  s3 : Nat
  s4 : Nat
  s5 : Nat
  s6 : Nat
deriving DecidableEq

/-- Embedding of `BleUtil::whitening_init` (bt_generic.rs:172-180): `ctx[0] = 1`,
`ctx[1..=6]` are bits 5 down to 0 of the seed. -/
def whiteningInit (val : Nat) : WhitCtx :=
  ⟨1, (val >>> 5) &&& 1, (val >>> 4) &&& 1, (val >>> 3) &&& 1,
    (val >>> 2) &&& 1, (val >>> 1) &&& 1, val &&& 1⟩

/-- The per-byte state update of `BleUtil::whitening_encode`
(bt_generic.rs:245-260): the `varXY` values are computed from the current
context, then all seven slots are overwritten. The source stores the bits
in `i32` variables; since every value involved is a single bit, `Nat` xor
is value-identical. -/
def whitStep (c : WhitCtx) : WhitCtx :=
  let var6 := c.s6
  let var5 := c.s5
  let var4 := c.s4
  let var3 := c.s3
  let var52 := var5 ^^^ c.s2
  let var41 := var4 ^^^ c.s1
  let var63 := var6 ^^^ c.s3
  let var630 := var63 ^^^ c.s0
  ⟨var52 ^^^ var6, var630, var41, var52, var52 ^^^ var3,
    var630 ^^^ var4, var41 ^^^ var5⟩

/-- The per-byte output transform of `BleUtil::whitening_encode`
(bt_generic.rs:262-270), using the `varXY` values derived from the state
*before* it is advanced. The source casts the byte through `i8`/`i32`;
each summand `(c & mask) ^ (bit << k)` only involves the low 8 bits of the
byte and single-bit state values, so the signed casts are value-preserving
on every summand, and the final `as u8` cast is `% 256`. -/
def whitenByte (c : WhitCtx) (b : Nat) : Nat :=
  let var6 := c.s6
  let var5 := c.s5
  let var4 := c.s4
  let var52 := var5 ^^^ c.s2
  let var41 := var4 ^^^ c.s1
  let var63 := var6 ^^^ c.s3
  let var630 := var63 ^^^ c.s0
  (((b &&& 0x80) ^^^ ((var52 ^^^ var6) <<< 7)) +
    ((b &&& 0x40) ^^^ (var630 <<< 6)) +
    ((b &&& 0x20) ^^^ (var41 <<< 5)) +
    ((b &&& 0x10) ^^^ (var52 <<< 4)) +
    ((b &&& 0x08) ^^^ (var63 <<< 3)) +
    ((b &&& 0x04) ^^^ (var4 <<< 2)) +
    ((b &&& 0x02) ^^^ (var5 <<< 1)) +
    ((b &&& 0x01) ^^^ var6)) % 256

/-- The keystream byte hidden in `whitenByte`: the eight state-derived bits
of bt_generic.rs:263-270, one per bit position (bit 7 down to bit 0). -/
def ksByte (c : WhitCtx) : Nat :=
  let var6 := c.s6
  let var5 := c.s5
  let var4 := c.s4
  let var52 := var5 ^^^ c.s2
  let var41 := var4 ^^^ c.s1
  let var63 := var6 ^^^ c.s3
  let var630 := var63 ^^^ c.s0
  ((var52 ^^^ var6) <<< 7) + (var630 <<< 6) + (var41 <<< 5) + (var52 <<< 4) +
    (var63 <<< 3) + (var4 <<< 2) + (var5 <<< 1) + var6

/-- A context whose seven slots are single bits. `whitening_init` always
produces such a context and `whitStep` preserves the property. -/
def IsBits (c : WhitCtx) : Prop :=
  c.s0 ≤ 1 ∧ c.s1 ≤ 1 ∧ c.s2 ≤ 1 ∧ c.s3 ≤ 1 ∧ c.s4 ≤ 1 ∧ c.s5 ≤ 1 ∧ c.s6 ≤ 1

instance (c : WhitCtx) : Decidable (IsBits c) := by
  unfold IsBits; infer_instance

/-- The loop of `BleUtil::whitening_encode` (bt_generic.rs:244-271):
`pos` is `i + offset`, the fuel is `len - i`. Each iteration whitens one
byte of `result` in place using the current context and then advances the
context exactly once. -/
def whitGo : WhitCtx → Nat → Nat → List Nat → List Nat
  | _, _, 0, res => res
  | c, pos, n + 1, res =>
    whitGo (whitStep c) (pos + 1) n (res.set pos (whitenByte c (res.getD pos 0)))

/-- Embedding of `BleUtil::whitening_encode` (bt_generic.rs:234-272). The source first
copies the *first* `len` bytes of `data` into the first `len` bytes of
`result` (`result[..len].copy_from_slice(&data[..len])`), then whitens the
bytes at positions `offset ..< offset + len` of `result` in place. -/
def whiteningEncode (data : List Nat) (len : Nat) (ctx : WhitCtx) (offset : Nat)
    (result : List Nat) : List Nat :=
  whitGo ctx offset len (data.take len ++ result.drop len)

/-- The shared loop body of `BleUtil::invert_8` and `BleUtil::invert_16`
(bt_generic.rs:213-232): `result <<= 1; result |= value & 1; value >>= 1`,
iterated `n` times. -/
def invLoop : Nat → Nat → Nat → Nat
  | 0, _, result => result
  | n + 1, value, result => invLoop n (value >>> 1) ((result <<< 1) ||| (value &&& 1))

/-- Embedding of `BleUtil::invert_8` (bt_generic.rs:213-221): reverse the low 8 bits. -/
def invert8 (value : Nat) : Nat := invLoop 8 value 0

/-- Embedding of `BleUtil::invert_16` (bt_generic.rs:223-232): reverse the low 16 bits. -/
def invert16 (value : Nat) : Nat := invLoop 16 value 0

/-- One round of the CRC16 loop body of `BleUtil::check_crc16`
(bt_generic.rs:188-194): on a `u32` accumulator, shift left by one (the
`u32` shift wraps at `2 ^ 32`) and xor in the polynomial 0x1021 if bit 15
was set before the shift. -/
def crcRound (crc : Nat) : Nat :=
  if crc &&& 0x8000 ≠ 0 then ((crc <<< 1) % 4294967296) ^^^ 0x1021
  else (crc <<< 1) % 4294967296

/-- Feeding one byte into the CRC accumulator (`crc ^= (b as u32) << 8`
followed by 8 rounds; bt_generic.rs:187-194 and 199-206). -/
def crcFeed (crc b : Nat) : Nat := crcRound^[8] (crc ^^^ (b <<< 8))

/-- Embedding of `BleUtil::check_crc16` (bt_generic.rs:182-211): address bytes in
reverse order, then data bytes in forward order each pre-transformed by
`invert_8`; finally `(!invert_16(crc as u16)) as u32 & 0xffff`, i.e. the
low 16 bits are bit-reversed and complemented (`!x` on `u16` is
`0xFFFF ^^^ x`). -/
def checkCrc16 (addr data : List Nat) : Nat :=
  let crcA := addr.reverse.foldl crcFeed 0xFFFF
  let crcD := data.foldl (fun crc b => crcFeed crc (invert8 b)) crcA
  (0xFFFF ^^^ invert16 (crcD % 65536)) &&& 0xFFFF

/-- The reversed-write loops of `BleUtil::get_rf_payload`
(bt_generic.rs:133-141): `for j in 0..vals.len() { buf[base - j - 1] = vals[j] }`. -/
def writeRevLoop (base : Nat) : List Nat → Nat → List Nat → List Nat
  | [], _, buf => buf
  | v :: rest, j, buf => writeRevLoop base rest (j + 1) (buf.set (base - j - 1) v)

/-- The byte-inversion loop of `BleUtil::get_rf_payload`
(bt_generic.rs:143-146): `for i in 0..k { buf[start + i] = invert_8(buf[start + i]) }`. -/
def invertLoop : Nat → Nat → List Nat → List Nat
  | _, 0, buf => buf
  | i, k + 1, buf => invertLoop (i + 1) k (buf.set i (invert8 (buf.getD i 0)))

/-- Embedding of `BleUtil::get_rf_payload` (bt_generic.rs:114-170). The working buffer
has length `0x12 + addr_len + data_len + 2`; constants at 0x0F..0x11, the
address and data written reversed, 3 + addr_len bytes bit-inverted from
0x0F, the CRC16 appended little-endian, two whitening passes (seed 0x3F
from offset 0x12 over `2 + addr_len + data_len` bytes into one zeroed
buffer, seed 0x25 from offset 0 over the whole buffer into another),
the two results xored byte-for-byte, and bytes 0x0F..0x1A of the xor
returned (`result[..11].copy_from_slice(&result_25[0x0f..0x1a])`). -/
def getRfPayload (addr data : List Nat) : List Nat :=
  let length24 := 0x12 + addr.length + data.length
  let length26 := length24 + 0x02
  let buf0 := List.replicate length26 0
  let buf1 := ((buf0.set 0x0F 0x71).set 0x10 0x0F).set 0x11 0x55
  let buf2 := writeRevLoop (0x12 + addr.length) addr 0 buf1
  let buf3 := writeRevLoop length24 data 0 buf2
  let buf4 := invertLoop 0x0F (3 + addr.length) buf3
  let crc16 := checkCrc16 addr data
  let buf5 := (buf4.set length24 (crc16 &&& 0xFF)).set (length24 + 1) ((crc16 >>> 8) &&& 0xFF)
  let result3f := whiteningEncode buf5 (2 + addr.length + data.length)
    (whiteningInit 0x3F) 0x12 (List.replicate length26 0)
  let result25 := whiteningEncode buf5 length26
    (whiteningInit 0x25) 0x00 (List.replicate length26 0)
  let xored := List.zipWith (fun a b => a ^^^ b) result25 result3f
  (xored.drop 0x0F).take 11

/-- The `Command` enum of bt_generic.rs:86-89. -/
inductive Command where
  | Raw (b0 b1 b2 : Nat)
  | Byte (val : Nat)
deriving DecidableEq

/-- Embedding of `BleUtil::get_ble_command` (bt_generic.rs:94-112): an 11-byte result;
for `Raw` the payload of `get_rf_payload(addr, [0])` with bytes 8..11
overwritten by the raw command bytes. -/
def getBleCommand (addressBytes : List Nat) (commandBytes : Command) : List Nat :=
  match commandBytes with
  | .Byte val => getRfPayload addressBytes [val]
  | .Raw b0 b1 b2 => (getRfPayload addressBytes [0]).take 8 ++ [b0, b1, b2]

end BleUtil

namespace BtGeneric

open BleUtil

/-- The constant `RAW_ADDRESS` (bt_generic.rs:11). -/
def RAW_ADDRESS : List Nat := [0x77, 0x62, 0x4D, 0x53, 0x45]

/-- The speed→command table of `BluetoothGenericService::ble_thread`
(bt_generic.rs:39-48): levels 1..=7 select seven raw codes, everything
else — including 0 and every value above 7 — falls to the catch-all
`Command::Raw([0xE5, 0x00, 0x00])`. -/
def speedCommand : Nat → Command
  | 1 => .Raw 0xF4 0x00 0x00
  | 2 => .Raw 0xF7 0x00 0x00
  | 3 => .Raw 0xF6 0x00 0x00
  | 4 => .Raw 0xF1 0x00 0x00
  | 5 => .Raw 0xF3 0x00 0x00
  | 6 => .Raw 0xE7 0x00 0x00
  | 7 => .Raw 0xE6 0x00 0x00
  | _ => .Raw 0xE5 0x00 0x00

/-- The 11-byte frame broadcast for a speed (bt_generic.rs:50). -/
def bleFrame (speed : Nat) : List Nat :=
  getBleCommand RAW_ADDRESS (speedCommand speed)

/-- The manufacturer-data payload placed on air (bt_generic.rs:51-52):
`vec![0x02, 0x01, 0x06]` extended with the 11-byte frame. -/
def bleAdvPayload (speed : Nat) : List Nat :=
  [0x02, 0x01, 0x06] ++ bleFrame speed

/-- The sequence of advertising states observable while
`ble_thread` replaces the advertisement for a newly received speed
(bt_generic.rs:68-72, identical order in adv_linux.rs:90-96): starting
from `prev` (the payload currently on air, if any), the old handle is
taken and dropped — unregistering the advertisement, so nothing is on
air — and only then is the new advertisement registered. -/
def advertiseStates (prev : Option (List Nat)) (speed : Nat) : List (Option (List Nat)) :=
  [prev, none, some (bleAdvPayload speed)]

end BtGeneric

namespace Gatt

/-- The `BleMessage` enum of gatt.rs:235-242 (events sent to the GUI).
The source constructor `AdapterInitialized` is modelled as `AdapterReady`;
`DeviceDiscovered` carries the device address. -/
inductive BleMessage where
  | AdapterReady
  | AdapterError (msg : String)
  | DeviceDiscovered (addr : String)
  | DeviceConnecting (addr : String)
  | DeviceConnected (addr : String)
  | DeviceDisconnected (addr : String)
deriving DecidableEq

/-- The `BleCommand` enum of gatt.rs:246-250 (commands from the GUI). -/
inductive BleCommand where
  | Connect (addr : String)
  | Disconnect
  | SendData (data : List Nat)
deriving DecidableEq

/-- The `BleCommand::Connect` arm of `BluetoothGattService::ble_thread`
(gatt.rs:182-201), with the platform abstracted: `peripherals` is the
adapter's peripheral list (by address) and `connectOk p` the outcome of
`peripheral.connect()`. For every peripheral matching the requested
address the actor emits `DeviceConnecting`, then on success stores the
peripheral (`connected_peripheral.replace(...)` — the previous handle is
merely dropped) and emits `DeviceConnected`. No disconnect of the old
peripheral happens and no `DeviceDisconnected` is emitted. -/
def processConnect (connectOk : String → Bool) (peripherals : List String)
    (connected : Option String) (address : String) : Option String × List BleMessage :=
  peripherals.foldl
    (fun acc p =>
      if p = address then
        if connectOk p then
          (some p, acc.2 ++ [.DeviceConnecting address, .DeviceConnected address])
        else
          (acc.1, acc.2 ++ [.DeviceConnecting address])
      else acc)
    (connected, [])

/-- One iteration of the command loop of `ble_thread` (gatt.rs:179-227):
the stored connected peripheral and the list of emitted messages. -/
def processCommand (connectOk : String → Bool) (peripherals : List String)
    (connected : Option String) : BleCommand → Option String × List BleMessage
  | .Connect address => processConnect connectOk peripherals connected address
  | .Disconnect =>
    match connected with
    | some p => (none, [.DeviceDisconnected p])
    | none => (none, [])
  | .SendData _ => (connected, [])

/-- The UTF-8 bytes of an ASCII command string (`.as_bytes()`). -/
def strBytes (s : String) : List Nat := s.toList.map Char.toNat

/-- Embedding of `BluetoothGattService::send_speed` (gatt.rs:111-119): if the speed
equals `last_speed` nothing is sent; otherwise `last_speed` is updated and
`format!("Vibrate:{};", speed.clamp(0, 20))` is forwarded to `send_data`.
Rust's `clamp(0, 20)` on an unsigned byte is `max 0 (min speed 20)`. -/
def sendSpeed (lastSpeed speed : Nat) : Nat × Option (List Nat) :=
  if speed = lastSpeed then (lastSpeed, none)
  else (speed, some (strBytes ("Vibrate:" ++ toString (max 0 (min speed 20)) ++ ";")))

end Gatt

namespace Spec

open BleUtil

/-!
Specification-side definitions, each transcribed from the wording of the
natural-language specification so it can be compared against the embedding
of the source.
-/

/-- One CRC16 round as the specification words it, on a 16-bit register:
"shift left by 1; if the bit shifted out of position 15 was 1, XOR crc
with 0x1021". -/
def crcRoundSpec (crc : Nat) : Nat :=
  if crc.testBit 15 then ((crc <<< 1) % 65536) ^^^ 0x1021
  else (crc <<< 1) % 65536

/-- Feeding one byte, per the specification: "XOR it into the high byte of
`crc`", then 8 rounds. -/
def crcFeedSpec (crc b : Nat) : Nat := crcRoundSpec^[8] (crc ^^^ (b <<< 8))

/-- The CRC16 as the specification describes it: `crc = 0xFFFF`; address
bytes in reverse order; data bytes in forward order, each bit-reversed via
`invertBits8` first; finally bit-reverse the 16-bit result via
`invertBits16`, take its bitwise complement, and mask to 16 bits. -/
def crc16Spec (addr data : List Nat) : Nat :=
  let crcA := addr.reverse.foldl crcFeedSpec 0xFFFF
  let crcD := data.foldl (fun crc b => crcFeedSpec crc (invert8 b)) crcA
  (0xFFFF ^^^ invert16 crcD) &&& 0xFFFF

/-- The output frame as claim C1 words it: a working buffer (zero
elsewhere) holding the preamble constants 0x71/0x0F/0x55 at offsets
0x0F..0x11, the address reversed immediately after, the reversed data
after the address, with the preamble+address bytes starting at offset 0x0F
bit-inverted and the CRC16 appended as two little-endian bytes right after
the data; one whitening pass seeded 0x3F from offset 0x12 over
`2 + addr_len + data_len` bytes, one seeded 0x25 over the whole buffer
from offset 0; the two whitened buffers xored byte-for-byte, and bytes
0x0F..0x1A (11 bytes) of the xor returned. -/
def rfPayloadSpec (addr data : List Nat) : List Nat :=
  let crc16 := checkCrc16 addr data
  let buf := List.replicate 0x0F 0
    ++ ([0x71, 0x0F, 0x55] ++ addr.reverse).map invert8
    ++ data.reverse
    ++ [crc16 &&& 0xFF, (crc16 >>> 8) &&& 0xFF]
  let result3f := whiteningEncode buf (2 + addr.length + data.length)
    (whiteningInit 0x3F) 0x12 (List.replicate buf.length 0)
  let result25 := whiteningEncode buf buf.length
    (whiteningInit 0x25) 0x00 (List.replicate buf.length 0)
  ((List.zipWith (fun a b => a ^^^ b) result25 result3f).drop 0x0F).take 11

/-- The whitening state update exactly as claim C3 states it: the five tap
equations `new_s0 = s1⊕s2⊕s6`, `new_s1 = s0⊕s3⊕s6`, `new_s2 = s1⊕s4`,
`new_s3 = s2⊕s3⊕s5`, `new_s4 = s2⊕s4`. -/
def c3TapClaim (c : WhitCtx) : Prop :=
  (whitStep c).s0 = c.s1 ^^^ c.s2 ^^^ c.s6 ∧
  (whitStep c).s1 = c.s0 ^^^ c.s3 ^^^ c.s6 ∧
  (whitStep c).s2 = c.s1 ^^^ c.s4 ∧
  (whitStep c).s3 = c.s2 ^^^ c.s3 ^^^ c.s5 ∧
  (whitStep c).s4 = c.s2 ^^^ c.s4

instance (c : WhitCtx) : Decidable (c3TapClaim c) := by
  unfold c3TapClaim; infer_instance

/-- Helper for sums over little-endian bit lists: `sumBits [u0, u1, ...]`
is `u0 + 2*u1 + 4*u2 + ...`. -/
def sumBits : List Nat → Nat
  | [] => 0
  | u :: us => u + 2 * sumBits us

end Spec

/-!  ## Supporting lemmas -/

namespace BleUtil

theorem getD_set_self (l : List Nat) (i : Nat) (v d : Nat) (h : i < l.length) :
    (l.set i v).getD i d = v := by
  simp [List.getD_eq_getElem?_getD, List.getElem?_set_self h]

theorem getD_set_ne (l : List Nat) (i j : Nat) (v d : Nat) (h : i ≠ j) :
    (l.set i v).getD j d = l.getD j d := by
  simp [List.getD_eq_getElem?_getD, List.getElem?_set_ne h]

theorem whitGo_length : ∀ (n : Nat) (c : WhitCtx) (pos : Nat) (res : List Nat),
    (whitGo c pos n res).length = res.length := by
  intro n
  induction n with
  | zero => intro c pos res; rfl
  | succ m ih =>
    intro c pos res
    rw [whitGo, ih]
    exact List.length_set ..

theorem whitGo_getD_lt : ∀ (n : Nat) (c : WhitCtx) (pos : Nat) (res : List Nat)
    (q d : Nat), q < pos → (whitGo c pos n res).getD q d = res.getD q d := by
  intro n
  induction n with
  | zero => intro c pos res q d _; rfl
  | succ m ih =>
    intro c pos res q d hq
    rw [whitGo, ih _ _ _ _ _ (Nat.lt_succ_of_lt hq)]
    exact getD_set_ne _ _ _ _ _ (Nat.ne_of_gt hq)

theorem whitGo_getD : ∀ (n : Nat) (c : WhitCtx) (pos : Nat) (res : List Nat)
    (i : Nat), i < n → pos + n ≤ res.length →
    (whitGo c pos n res).getD (pos + i) 0 =
      whitenByte (whitStep^[i] c) (res.getD (pos + i) 0) := by
  intro n
  induction n with
  | zero => intro _ _ _ i h; exact absurd h (Nat.not_lt_zero i)
  | succ m ih =>
    intro c pos res i hi hlen
    rw [whitGo]
    rcases i with _ | j
    · rw [whitGo_getD_lt m (whitStep c) (pos + 1) _ (pos + 0) 0 (by omega)]
      rw [show pos + 0 = pos from rfl]
      rw [getD_set_self]
      · rfl
      · omega
    · have h1 : pos + (j + 1) = (pos + 1) + j := by omega
      rw [h1, ih (whitStep c) (pos + 1) _ j (by omega)
        (by rw [List.length_set]; omega)]
      rw [getD_set_ne _ _ _ _ _ (by omega)]
      rw [Function.iterate_succ_apply]

theorem invLoop_succ_arith (n v r : Nat) :
    invLoop (n + 1) v r = invLoop n (v / 2) (2 * r + v % 2) := by
  rw [invLoop]
  have h1 : v >>> 1 = v / 2 := by
    rw [Nat.shiftRight_eq_div_pow, pow_one]
  have h2 : (r <<< 1) ||| (v &&& 1) = 2 * r + v % 2 := by
    rcases Nat.mod_two_eq_zero_or_one v with h | h
    · rw [Nat.and_one_is_mod, h, Nat.or_zero, Nat.shiftLeft_eq, pow_one]
      omega
    · rw [Nat.and_one_is_mod, h]
      apply Nat.eq_of_testBit_eq
      intro i
      rcases i with _ | k
      · have e1 : (2 * r + 1) % 2 = 1 := by omega
        have e0 : (r <<< 1) % 2 = 0 := by rw [Nat.shiftLeft_eq, pow_one]; omega
        simp [Nat.testBit_or, Nat.testBit_to_div_mod, e0, e1]
      · have e4 : Nat.testBit 1 (k + 1) = false := by
          exact Nat.testBit_lt_two_pow (Nat.one_lt_two_pow_iff.mpr (by omega))
        rw [Nat.testBit_or, e4, Bool.or_false]
        have e2 : (2 * r + 1) / 2 = r := by omega
        have e3 : (r <<< 1) / 2 = r := by rw [Nat.shiftLeft_eq, pow_one]; omega
        rw [Nat.testBit_succ, Nat.testBit_succ, e2, e3]
  rw [h1, h2]

theorem invLoop_lt : ∀ (n v r : Nat), invLoop n v r < (r + 1) * 2 ^ n := by
  intro n
  induction n with
  | zero => intro v r; simp [invLoop]
  | succ m ih =>
    intro v r
    rw [invLoop_succ_arith]
    calc invLoop m (v / 2) (2 * r + v % 2) < (2 * r + v % 2 + 1) * 2 ^ m := ih _ _
    _ ≤ (r + 1) * 2 ^ (m + 1) := by
        have hv : v % 2 ≤ 1 := by omega
        have : 2 * r + v % 2 + 1 ≤ 2 * (r + 1) := by omega
        calc (2 * r + v % 2 + 1) * 2 ^ m ≤ 2 * (r + 1) * 2 ^ m :=
          Nat.mul_le_mul_right _ this
        _ = (r + 1) * 2 ^ (m + 1) := by ring

theorem invert8_lt (v : Nat) : invert8 v < 256 := by
  have h := invLoop_lt 8 v 0
  simpa [invert8] using h

theorem invert16_lt (v : Nat) : invert16 v < 65536 := by
  have := invLoop_lt 16 v 0
  simpa [invert16] using this

end BleUtil

namespace Spec

open BleUtil

theorem xor_mod_two_pow (a b n : Nat) :
    (a ^^^ b) % 2 ^ n = (a % 2 ^ n) ^^^ (b % 2 ^ n) := by
  apply Nat.eq_of_testBit_eq
  intro i
  simp only [Nat.testBit_mod_two_pow, Nat.testBit_xor]
  by_cases h : i < n <;> simp [h]

theorem crcRound_congr (x : Nat) :
    crcRound x % 65536 = crcRoundSpec (x % 65536) := by
  have hcond : (x &&& 0x8000 ≠ 0) ↔ x.testBit 15 = true := by
    rw [show (0x8000 : Nat) = 2 ^ 15 by norm_num, Nat.and_two_pow]
    cases h : x.testBit 15 <;> simp [h]
  have hbit : (x % 65536).testBit 15 = x.testBit 15 := by
    rw [show (65536 : Nat) = 2 ^ 16 by norm_num, Nat.testBit_mod_two_pow]
    simp
  have hshift : ((x <<< 1) % 4294967296) % 65536 = ((x % 65536) <<< 1) % 65536 := by
    rw [Nat.shiftLeft_eq, Nat.shiftLeft_eq, pow_one]
    omega
  rw [crcRound, crcRoundSpec, hbit]
  cases h : x.testBit 15 with
  | false =>
    rw [if_neg (by simp [hcond, h]), if_neg (by simp)]
    exact hshift
  | true =>
    rw [if_pos (hcond.mpr h), if_pos rfl]
    rw [show (65536 : Nat) = 2 ^ 16 by norm_num, xor_mod_two_pow]
    rw [show (0x1021 : Nat) % 2 ^ 16 = 0x1021 by norm_num]
    rw [show (2 : Nat) ^ 16 = 65536 by norm_num, hshift]

theorem crcRound_iter_congr (k x : Nat) :
    (crcRound^[k] x) % 65536 = crcRoundSpec^[k] (x % 65536) := by
  induction k generalizing x with
  | zero => rfl
  | succ m ih =>
    rw [Function.iterate_succ_apply, Function.iterate_succ_apply, ih, crcRound_congr]

theorem crcFeed_congr (x b : Nat) (hb : b < 256) :
    crcFeed x b % 65536 = crcFeedSpec (x % 65536) b := by
  rw [crcFeed, crcFeedSpec, crcRound_iter_congr]
  congr 1
  rw [show (65536 : Nat) = 2 ^ 16 by norm_num, xor_mod_two_pow]
  congr 1
  rw [Nat.shiftLeft_eq]
  rw [Nat.mod_eq_of_lt]
  have hmul : b * 2 ^ 8 < 256 * 2 ^ 8 := by
    have := Nat.mul_le_mul_right (2 ^ 8) (Nat.le_of_lt_succ hb)
    omega
  omega

theorem crcFold_addr_congr (l : List Nat) (acc : Nat) (hl : ∀ b ∈ l, b < 256) :
    (l.foldl crcFeed acc) % 65536 = l.foldl crcFeedSpec (acc % 65536) := by
  induction l generalizing acc with
  | nil => rfl
  | cons b rest ih =>
    rw [List.foldl_cons, List.foldl_cons]
    rw [ih _ (fun x hx => hl x (List.mem_cons_of_mem _ hx))]
    rw [crcFeed_congr _ _ (hl b (List.mem_cons_self _ _))]

theorem crcFold_data_congr (l : List Nat) (acc : Nat) :
    (l.foldl (fun crc b => crcFeed crc (invert8 b)) acc) % 65536 =
      l.foldl (fun crc b => crcFeedSpec crc (invert8 b)) (acc % 65536) := by
  induction l generalizing acc with
  | nil => rfl
  | cons b rest ih =>
    rw [List.foldl_cons, List.foldl_cons, ih, crcFeed_congr _ _ (invert8_lt b)]

end Spec

namespace BleUtil

theorem invLoop_acc : ∀ (n v r : Nat), invLoop n v r = r * 2 ^ n + invLoop n v 0 := by
  intro n
  induction n with
  | zero => intro v r; simp [invLoop]
  | succ m ih =>
    intro v r
    rw [invLoop_succ_arith, invLoop_succ_arith, ih (v / 2) (2 * r + v % 2),
      ih (v / 2) (2 * 0 + v % 2)]
    ring

theorem invLoop_mod : ∀ (n v r : Nat), invLoop n v r = invLoop n (v % 2 ^ n) r := by
  intro n
  induction n with
  | zero => intro v r; rfl
  | succ m ih =>
    intro v r
    rw [invLoop_succ_arith, invLoop_succ_arith]
    have h1 : v % 2 ^ (m + 1) % 2 = v % 2 := by
      rw [Nat.mod_mod_of_dvd]
      exact dvd_pow_self 2 (Nat.succ_ne_zero m)
    have h2 : v % 2 ^ (m + 1) / 2 = v / 2 % 2 ^ m := by
      rw [pow_succ]
      exact Nat.mod_mul_left_div_self v 2 (2 ^ m)
    rw [h1, h2, ih (v / 2)]

theorem invLoop_split : ∀ (m n v r : Nat),
    invLoop (m + n) v r = invLoop n (v / 2 ^ m) (invLoop m v r) := by
  intro m
  induction m with
  | zero => intro n v r; simp [invLoop]
  | succ k ih =>
    intro n v r
    have h1 : k + 1 + n = k + n + 1 := by omega
    rw [h1]
    rw [show invLoop (k + n + 1) v r = invLoop (k + n) (v / 2) (2 * r + v % 2) from
      invLoop_succ_arith _ _ _]
    rw [ih n (v / 2) (2 * r + v % 2)]
    rw [show invLoop (k + 1) v r = invLoop k (v / 2) (2 * r + v % 2) from
      invLoop_succ_arith _ _ _]
    congr 1
    rw [Nat.div_div_eq_div_mul, pow_succ']

theorem invert16_decompose (v : Nat) :
    invert16 v = invert8 v * 256 + invert8 (v / 256) := by
  rw [invert16, show (16 : Nat) = 8 + 8 from rfl, invLoop_split]
  rw [invLoop_acc]
  rw [show (2 : Nat) ^ 8 = 256 by norm_num]
  rfl

theorem invert8_mod (v : Nat) : invert8 v = invert8 (v % 256) := by
  rw [invert8, invert8, invLoop_mod]
  norm_num

end BleUtil

namespace BleUtil

theorem set_last_eq_dropLast_append (l : List Nat) (hne : l ≠ []) (v : Nat) :
    l.set (l.length - 1) v = l.dropLast ++ [v] := by
  obtain ⟨l', x, rfl⟩ : ∃ l' x, l = l' ++ [x] :=
    ⟨l.dropLast, l.getLast hne, (List.dropLast_concat_getLast hne).symm⟩
  rw [List.set_append_right _ _ (by simp)]
  simp

theorem writeRevLoop_spec : ∀ (vals : List Nat) (base j : Nat)
    (pre mid post : List Nat), mid.length = vals.length →
    base = pre.length + vals.length + j →
    writeRevLoop base vals j (pre ++ mid ++ post) = pre ++ vals.reverse ++ post := by
  intro vals
  induction vals with
  | nil =>
    intro base j pre mid post hmid _
    have h : mid = [] := List.eq_nil_of_length_eq_zero hmid
    subst h
    simp [writeRevLoop]
  | cons v rest ih =>
    intro base j pre mid post hmid hbase
    rw [writeRevLoop]
    have hmidne : mid ≠ [] := by
      intro h; subst h; simp at hmid
    have hmpos : 1 ≤ mid.length := List.length_pos.mpr hmidne
    have hidx : base - j - 1 = pre.length + (mid.length - 1) := by
      simp only [List.length_cons] at hbase hmid
      omega
    have hset : (pre ++ mid ++ post).set (base - j - 1) v =
        pre ++ (mid.dropLast ++ ([v] ++ post)) := by
      rw [hidx, List.append_assoc]
      rw [List.set_append_right _ _ (by omega)]
      rw [show pre.length + (mid.length - 1) - pre.length = mid.length - 1 by omega]
      rw [List.set_append_left _ _ (by omega)]
      rw [set_last_eq_dropLast_append mid hmidne v]
      simp [List.append_assoc]
    rw [hset]
    rw [show pre ++ (mid.dropLast ++ ([v] ++ post)) =
      pre ++ mid.dropLast ++ ([v] ++ post) by simp [List.append_assoc]]
    rw [ih base (j + 1) pre mid.dropLast ([v] ++ post)
      (by simp [List.length_dropLast, hmid])
      (by simp only [List.length_cons] at hbase; omega)]
    simp [List.append_assoc]

theorem invertLoop_spec : ∀ (k : Nat) (pre seg post : List Nat),
    seg.length = k →
    invertLoop pre.length k (pre ++ seg ++ post) =
      pre ++ seg.map invert8 ++ post := by
  intro k
  induction k with
  | zero =>
    intro pre seg post hseg
    have h : seg = [] := List.eq_nil_of_length_eq_zero hseg
    subst h
    simp [invertLoop]
  | succ m ih =>
    intro pre seg post hseg
    rcases seg with _ | ⟨s, srest⟩
    · simp at hseg
    rw [invertLoop]
    have hget : (pre ++ (s :: srest) ++ post).getD pre.length 0 = s := by
      rw [List.append_assoc, List.getD_eq_getElem?_getD,
        List.getElem?_append_right (Nat.le_refl _)]
      simp
    have hset : (pre ++ (s :: srest) ++ post).set pre.length (invert8 s) =
        pre ++ [invert8 s] ++ (srest ++ post) := by
      rw [List.append_assoc, List.set_append_right _ _ (Nat.le_refl _),
        Nat.sub_self]
      simp [List.append_assoc]
    rw [hget, hset]
    rw [show pre ++ [invert8 s] ++ (srest ++ post) =
      (pre ++ [invert8 s]) ++ srest ++ post by simp [List.append_assoc]]
    rw [show pre.length + 1 = (pre ++ [invert8 s]).length by simp]
    rw [ih (pre ++ [invert8 s]) srest post (by simpa using hseg)]
    simp [List.append_assoc]

end BleUtil

namespace Gatt

theorem processConnect_no_disconnect :
    ∀ (ps : List String) (ok : String → Bool) (addr : String)
      (st : Option String) (ms : List BleMessage),
      (∀ x, BleMessage.DeviceDisconnected x ∉ ms) →
      ∀ x, BleMessage.DeviceDisconnected x ∉
        (ps.foldl
          (fun acc p =>
            if p = addr then
              if ok p then
                (some p, acc.2 ++ [.DeviceConnecting addr, .DeviceConnected addr])
              else
                (acc.1, acc.2 ++ [.DeviceConnecting addr])
            else acc)
          (st, ms)).2 := by
  intro ps
  induction ps with
  | nil => intro ok addr st ms hms x; exact hms x
  | cons p rest ih =>
    intro ok addr st ms hms x
    rw [List.foldl_cons]
    by_cases hp : p = addr
    · subst hp
      by_cases hok : ok p
      · rw [if_pos rfl, if_pos hok]
        apply ih
        intro y hy
        rcases List.mem_append.mp hy with h | h
        · exact hms y h
        · simp at h
      · rw [if_pos rfl, if_neg hok]
        apply ih
        intro y hy
        rcases List.mem_append.mp hy with h | h
        · exact hms y h
        · simp at h
    · rw [if_neg hp]
      exact ih ok addr st ms hms x

theorem processConnect_mem_mono :
    ∀ (ps : List String) (ok : String → Bool) (addr : String)
      (st : Option String) (ms : List BleMessage) (m : BleMessage),
      m ∈ ms →
      m ∈ (ps.foldl
        (fun acc p =>
          if p = addr then
            if ok p then
              (some p, acc.2 ++ [.DeviceConnecting addr, .DeviceConnected addr])
            else
              (acc.1, acc.2 ++ [.DeviceConnecting addr])
          else acc)
        (st, ms)).2 := by
  intro ps
  induction ps with
  | nil => intro ok addr st ms m hm; exact hm
  | cons p rest ih =>
    intro ok addr st ms m hm
    rw [List.foldl_cons]
    by_cases hp : p = addr
    · subst hp
      by_cases hok : ok p
      · rw [if_pos rfl, if_pos hok]
        exact ih _ _ _ _ _ (List.mem_append_left _ hm)
      · rw [if_pos rfl, if_neg hok]
        exact ih _ _ _ _ _ (List.mem_append_left _ hm)
    · rw [if_neg hp]
      exact ih _ _ _ _ _ hm

theorem processConnect_emits_connecting :
    ∀ (ps : List String) (ok : String → Bool) (addr : String)
      (st : Option String) (ms : List BleMessage),
      addr ∈ ps →
      BleMessage.DeviceConnecting addr ∈
        (ps.foldl
          (fun acc p =>
            if p = addr then
              if ok p then
                (some p, acc.2 ++ [.DeviceConnecting addr, .DeviceConnected addr])
              else
                (acc.1, acc.2 ++ [.DeviceConnecting addr])
            else acc)
          (st, ms)).2 := by
  intro ps
  induction ps with
  | nil => intro ok addr st ms h; simp at h
  | cons p rest ih =>
    intro ok addr st ms hmem
    rw [List.foldl_cons]
    by_cases hp : p = addr
    · subst hp
      by_cases hok : ok p
      · rw [if_pos rfl, if_pos hok]
        apply processConnect_mem_mono
        simp
      · rw [if_pos rfl, if_neg hok]
        apply processConnect_mem_mono
        simp
    · rw [if_neg hp]
      apply ih
      rcases List.mem_cons.mp hmem with h | h
      · exact absurd h.symm hp
      · exact h

end Gatt

namespace Spec

open BleUtil

theorem bit_xor_le (x y : Nat) (hx : x ≤ 1) (hy : y ≤ 1) : x ^^^ y ≤ 1 := by
  rcases Nat.le_one_iff_eq_zero_or_eq_one.mp hx with rfl | rfl <;>
    rcases Nat.le_one_iff_eq_zero_or_eq_one.mp hy with rfl | rfl <;> decide

theorem xor_bit_step (a b x y : Nat) (hx : x ≤ 1) (hy : y ≤ 1) :
    (2 * a + x) ^^^ (2 * b + y) = 2 * (a ^^^ b) + (x ^^^ y) := by
  rcases Nat.le_one_iff_eq_zero_or_eq_one.mp hx with rfl | rfl <;>
    rcases Nat.le_one_iff_eq_zero_or_eq_one.mp hy with rfl | rfl
  · have h := Nat.xor_bit false a false b
    simp [Nat.bit_val] at h
    simpa using h
  · have h := Nat.xor_bit false a true b
    simp [Nat.bit_val] at h
    simpa using h
  · have h := Nat.xor_bit true a false b
    simp [Nat.bit_val] at h
    simpa using h
  · have h := Nat.xor_bit true a true b
    simp [Nat.bit_val] at h
    simpa using h

theorem sumBits_xor : ∀ (xs ys : List Nat), xs.length = ys.length →
    (∀ u ∈ xs, u ≤ 1) → (∀ u ∈ ys, u ≤ 1) →
    sumBits xs ^^^ sumBits ys = sumBits (List.zipWith (fun a b => a ^^^ b) xs ys) := by
  intro xs
  induction xs with
  | nil =>
    intro ys hlen _ _
    have h : ys = [] := List.eq_nil_of_length_eq_zero hlen.symm
    subst h
    rfl
  | cons x xs' ih =>
    intro ys hlen hxs hys
    rcases ys with _ | ⟨y, ys'⟩
    · simp at hlen
    rw [List.zipWith_cons_cons]
    rw [sumBits, sumBits, sumBits]
    have hx : x ≤ 1 := hxs x (List.mem_cons_self _ _)
    have hy : y ≤ 1 := hys y (List.mem_cons_self _ _)
    rw [show x + 2 * sumBits xs' = 2 * sumBits xs' + x by omega]
    rw [show y + 2 * sumBits ys' = 2 * sumBits ys' + y by omega]
    rw [xor_bit_step _ _ _ _ hx hy]
    rw [ih ys' (by simpa using hlen)
      (fun u hu => hxs u (List.mem_cons_of_mem _ hu))
      (fun u hu => hys u (List.mem_cons_of_mem _ hu))]
    omega

theorem and_pow_two_eq (b k : Nat) : b &&& 2 ^ k = b / 2 ^ k % 2 * 2 ^ k := by
  rw [Nat.and_two_pow]
  rcases Nat.mod_two_eq_zero_or_one (b / 2 ^ k) with h | h
  · rw [Nat.testBit_to_div_mod, h]; simp
  · rw [Nat.testBit_to_div_mod, h]; simp

theorem bit_scaled_xor (u z k : Nat) (hu : u ≤ 1) (hz : z ≤ 1) :
    (u * 2 ^ k) ^^^ (z * 2 ^ k) = (u ^^^ z) * 2 ^ k := by
  rcases Nat.le_one_iff_eq_zero_or_eq_one.mp hu with rfl | rfl <;>
    rcases Nat.le_one_iff_eq_zero_or_eq_one.mp hz with rfl | rfl <;>
    simp [Nat.xor_self]

end Spec

namespace Spec

open BleUtil

theorem whitenByte_eq_xor (c : WhitCtx) (b : Nat) (hc : IsBits c) (hb : b < 256) :
    whitenByte c b = b ^^^ ksByte c := by
  obtain ⟨h0, h1, h2, h3, h4, h5, h6⟩ := hc
  have z63 : c.s6 ^^^ c.s3 ≤ 1 := bit_xor_le _ _ h6 h3
  have z52 : c.s5 ^^^ c.s2 ≤ 1 := bit_xor_le _ _ h5 h2
  have z41 : c.s4 ^^^ c.s1 ≤ 1 := bit_xor_le _ _ h4 h1
  have z630 : (c.s6 ^^^ c.s3) ^^^ c.s0 ≤ 1 := bit_xor_le _ _ z63 h0
  have z526 : (c.s5 ^^^ c.s2) ^^^ c.s6 ≤ 1 := bit_xor_le _ _ z52 h6
  have eW : whitenByte c b =
      (((b &&& 128) ^^^ (((c.s5 ^^^ c.s2) ^^^ c.s6) <<< 7)) +
        ((b &&& 64) ^^^ (((c.s6 ^^^ c.s3) ^^^ c.s0) <<< 6)) +
        ((b &&& 32) ^^^ ((c.s4 ^^^ c.s1) <<< 5)) +
        ((b &&& 16) ^^^ ((c.s5 ^^^ c.s2) <<< 4)) +
        ((b &&& 8) ^^^ ((c.s6 ^^^ c.s3) <<< 3)) +
        ((b &&& 4) ^^^ (c.s4 <<< 2)) +
        ((b &&& 2) ^^^ (c.s5 <<< 1)) +
        ((b &&& 1) ^^^ c.s6)) % 256 := rfl
  have eK : ksByte c =
      ((((c.s5 ^^^ c.s2) ^^^ c.s6) <<< 7) + (((c.s6 ^^^ c.s3) ^^^ c.s0) <<< 6) +
        ((c.s4 ^^^ c.s1) <<< 5) + ((c.s5 ^^^ c.s2) <<< 4) + ((c.s6 ^^^ c.s3) <<< 3) +
        (c.s4 <<< 2) + (c.s5 <<< 1) + c.s6) := rfl
  have t7 : (b &&& 128) ^^^ (((c.s5 ^^^ c.s2) ^^^ c.s6) <<< 7) =
      (b / 128 % 2 ^^^ ((c.s5 ^^^ c.s2) ^^^ c.s6)) * 128 := by
    have hm := and_pow_two_eq b 7
    norm_num at hm
    have hs : ((c.s5 ^^^ c.s2) ^^^ c.s6) <<< 7 = ((c.s5 ^^^ c.s2) ^^^ c.s6) * 128 := by
      rw [Nat.shiftLeft_eq]
    have hx := bit_scaled_xor (b / 128 % 2) ((c.s5 ^^^ c.s2) ^^^ c.s6) 7 (by omega) z526
    norm_num at hx
    rw [hm, hs, hx]
  have t6 : (b &&& 64) ^^^ (((c.s6 ^^^ c.s3) ^^^ c.s0) <<< 6) =
      (b / 64 % 2 ^^^ ((c.s6 ^^^ c.s3) ^^^ c.s0)) * 64 := by
    have hm := and_pow_two_eq b 6
    norm_num at hm
    have hs : ((c.s6 ^^^ c.s3) ^^^ c.s0) <<< 6 = ((c.s6 ^^^ c.s3) ^^^ c.s0) * 64 := by
      rw [Nat.shiftLeft_eq]
    have hx := bit_scaled_xor (b / 64 % 2) ((c.s6 ^^^ c.s3) ^^^ c.s0) 6 (by omega) z630
    norm_num at hx
    rw [hm, hs, hx]
  have t5 : (b &&& 32) ^^^ ((c.s4 ^^^ c.s1) <<< 5) =
      (b / 32 % 2 ^^^ (c.s4 ^^^ c.s1)) * 32 := by
    have hm := and_pow_two_eq b 5
    norm_num at hm
    have hs : (c.s4 ^^^ c.s1) <<< 5 = (c.s4 ^^^ c.s1) * 32 := by
      rw [Nat.shiftLeft_eq]
    have hx := bit_scaled_xor (b / 32 % 2) (c.s4 ^^^ c.s1) 5 (by omega) z41
    norm_num at hx
    rw [hm, hs, hx]
  have t4 : (b &&& 16) ^^^ ((c.s5 ^^^ c.s2) <<< 4) =
      (b / 16 % 2 ^^^ (c.s5 ^^^ c.s2)) * 16 := by
    have hm := and_pow_two_eq b 4
    norm_num at hm
    have hs : (c.s5 ^^^ c.s2) <<< 4 = (c.s5 ^^^ c.s2) * 16 := by
      rw [Nat.shiftLeft_eq]
    have hx := bit_scaled_xor (b / 16 % 2) (c.s5 ^^^ c.s2) 4 (by omega) z52
    norm_num at hx
    rw [hm, hs, hx]
  have t3 : (b &&& 8) ^^^ ((c.s6 ^^^ c.s3) <<< 3) =
      (b / 8 % 2 ^^^ (c.s6 ^^^ c.s3)) * 8 := by
    have hm := and_pow_two_eq b 3
    norm_num at hm
    have hs : (c.s6 ^^^ c.s3) <<< 3 = (c.s6 ^^^ c.s3) * 8 := by
      rw [Nat.shiftLeft_eq]
    have hx := bit_scaled_xor (b / 8 % 2) (c.s6 ^^^ c.s3) 3 (by omega) z63
    norm_num at hx
    rw [hm, hs, hx]
  have t2 : (b &&& 4) ^^^ (c.s4 <<< 2) = (b / 4 % 2 ^^^ c.s4) * 4 := by
    have hm := and_pow_two_eq b 2
    norm_num at hm
    have hs : c.s4 <<< 2 = c.s4 * 4 := by rw [Nat.shiftLeft_eq]
    have hx := bit_scaled_xor (b / 4 % 2) c.s4 2 (by omega) h4
    norm_num at hx
    rw [hm, hs, hx]
  have t1 : (b &&& 2) ^^^ (c.s5 <<< 1) = (b / 2 % 2 ^^^ c.s5) * 2 := by
    have hm := and_pow_two_eq b 1
    norm_num at hm
    have hs : c.s5 <<< 1 = c.s5 * 2 := by rw [Nat.shiftLeft_eq]
    have hx := bit_scaled_xor (b / 2 % 2) c.s5 1 (by omega) h5
    norm_num at hx
    rw [hm, hs, hx]
  have t0 : (b &&& 1) ^^^ c.s6 = b % 2 ^^^ c.s6 := by
    rw [Nat.and_one_is_mod]
  have k7 : ((c.s5 ^^^ c.s2) ^^^ c.s6) <<< 7 = ((c.s5 ^^^ c.s2) ^^^ c.s6) * 128 := by
    rw [Nat.shiftLeft_eq]
  have k6 : ((c.s6 ^^^ c.s3) ^^^ c.s0) <<< 6 = ((c.s6 ^^^ c.s3) ^^^ c.s0) * 64 := by
    rw [Nat.shiftLeft_eq]
  have k5 : (c.s4 ^^^ c.s1) <<< 5 = (c.s4 ^^^ c.s1) * 32 := by
    rw [Nat.shiftLeft_eq]
  have k4 : (c.s5 ^^^ c.s2) <<< 4 = (c.s5 ^^^ c.s2) * 16 := by
    rw [Nat.shiftLeft_eq]
  have k3 : (c.s6 ^^^ c.s3) <<< 3 = (c.s6 ^^^ c.s3) * 8 := by
    rw [Nat.shiftLeft_eq]
  have k2 : c.s4 <<< 2 = c.s4 * 4 := by rw [Nat.shiftLeft_eq]
  have k1 : c.s5 <<< 1 = c.s5 * 2 := by rw [Nat.shiftLeft_eq]
  rw [eW, eK, t7, t6, t5, t4, t3, t2, t1, t0, k7, k6, k5, k4, k3, k2, k1]
  have w7 := bit_xor_le (b / 128 % 2) ((c.s5 ^^^ c.s2) ^^^ c.s6) (by omega) z526
  have w6 := bit_xor_le (b / 64 % 2) ((c.s6 ^^^ c.s3) ^^^ c.s0) (by omega) z630
  have w5 := bit_xor_le (b / 32 % 2) (c.s4 ^^^ c.s1) (by omega) z41
  have w4 := bit_xor_le (b / 16 % 2) (c.s5 ^^^ c.s2) (by omega) z52
  have w3 := bit_xor_le (b / 8 % 2) (c.s6 ^^^ c.s3) (by omega) z63
  have w2 := bit_xor_le (b / 4 % 2) c.s4 (by omega) h4
  have w1 := bit_xor_le (b / 2 % 2) c.s5 (by omega) h5
  have w0 := bit_xor_le (b % 2) c.s6 (by omega) h6
  rw [Nat.mod_eq_of_lt (by omega)]
  have hb_dec : b = sumBits [b % 2, b / 2 % 2, b / 4 % 2, b / 8 % 2, b / 16 % 2,
      b / 32 % 2, b / 64 % 2, b / 128 % 2] := by
    simp [sumBits]; omega
  have hks_dec : ((c.s5 ^^^ c.s2) ^^^ c.s6) * 128 + ((c.s6 ^^^ c.s3) ^^^ c.s0) * 64 +
      (c.s4 ^^^ c.s1) * 32 + (c.s5 ^^^ c.s2) * 16 + (c.s6 ^^^ c.s3) * 8 + c.s4 * 4 +
      c.s5 * 2 + c.s6 =
      sumBits [c.s6, c.s5, c.s4, c.s6 ^^^ c.s3, c.s5 ^^^ c.s2, c.s4 ^^^ c.s1,
        (c.s6 ^^^ c.s3) ^^^ c.s0, (c.s5 ^^^ c.s2) ^^^ c.s6] := by
    simp [sumBits]; ring
  have hU : ∀ u ∈ [b % 2, b / 2 % 2, b / 4 % 2, b / 8 % 2, b / 16 % 2,
      b / 32 % 2, b / 64 % 2, b / 128 % 2], u ≤ 1 := by
    intro u hu
    simp at hu
    rcases hu with rfl | rfl | rfl | rfl | rfl | rfl | rfl | rfl <;> omega
  have hZ : ∀ u ∈ [c.s6, c.s5, c.s4, c.s6 ^^^ c.s3, c.s5 ^^^ c.s2, c.s4 ^^^ c.s1,
      (c.s6 ^^^ c.s3) ^^^ c.s0, (c.s5 ^^^ c.s2) ^^^ c.s6], u ≤ 1 := by
    intro u hu
    simp at hu
    rcases hu with rfl | rfl | rfl | rfl | rfl | rfl | rfl | rfl <;> assumption
  conv_rhs => rw [hb_dec, hks_dec]
  rw [sumBits_xor _ _ (by simp) hU hZ]
  simp only [List.zipWith, sumBits]
  ring
end Spec

/-!  ## Claim theorems -/

open BleUtil BtGeneric Gatt Spec

/-- Claim C3, counterexample: the tap equations stated by the specification
(`new_s0 = s1⊕s2⊕s6`, ..., `new_s3 = s2⊕s3⊕s5`, `new_s4 = s2⊕s4`) fail on
the code's state update at the concrete state `s5 = 1`, all others `0`:
the code computes `new_s0 = s2⊕s5⊕s6 = 1` whereas the claim demands
`s1⊕s2⊕s6 = 0`. -/
theorem c3_tap_counterexample : ¬ Spec.c3TapClaim ⟨0, 0, 0, 0, 0, 1, 0⟩ := by
  decide

/-- Claim C3 (amended): each per-byte step of `whitening_encode` updates
the state by the tap equations actually implemented — `new_s0 = s2⊕s5⊕s6`,
`new_s1 = s0⊕s3⊕s6`, `new_s2 = s1⊕s4`, `new_s3 = s2⊕s5`,
`new_s4 = s2⊕s3⊕s5` — advances the state exactly once per output byte
(byte `i` of a pass is whitened with the state advanced exactly `i` times),
and xors every one of the 8 bits of each output byte with a state-derived
keystream bit: on bit-valued states `whitenByte c b = b ^^^ ksByte c`. -/
theorem c3_whitening_step_amended :
    (∀ c : WhitCtx,
      (whitStep c).s0 = c.s2 ^^^ c.s5 ^^^ c.s6 ∧
      (whitStep c).s1 = c.s0 ^^^ c.s3 ^^^ c.s6 ∧
      (whitStep c).s2 = c.s1 ^^^ c.s4 ∧
      (whitStep c).s3 = c.s2 ^^^ c.s5 ∧
      (whitStep c).s4 = c.s2 ^^^ c.s3 ^^^ c.s5) ∧
    (∀ (c : WhitCtx) (pos n : Nat) (res : List Nat) (i : Nat), i < n →
      pos + n ≤ res.length →
      (whitGo c pos n res).getD (pos + i) 0 =
        whitenByte (whitStep^[i] c) (res.getD (pos + i) 0)) ∧
    (∀ (c : WhitCtx) (b : Nat), IsBits c → b < 256 →
      whitenByte c b = b ^^^ ksByte c) := by
  refine ⟨?_, ?_, ?_⟩
  · intro c
    have xlc : ∀ a b d : Nat, a ^^^ (b ^^^ d) = b ^^^ (a ^^^ d) := fun a b d => by
      rw [← Nat.xor_assoc, Nat.xor_comm a b, Nat.xor_assoc]
    refine ⟨?_, ?_, ?_, ?_, ?_⟩ <;>
      simp [whitStep, Nat.xor_comm, Nat.xor_assoc, xlc]
  · intro c pos n res i hi hlen
    exact whitGo_getD n c pos res i hi hlen
  · intro c b hc hb
    exact Spec.whitenByte_eq_xor c b hc hb

/-- Witness for C3 (amended) at concrete inputs: the tap equations at the
all-ones state, the once-per-byte property for byte 1 of a 2-byte pass,
and the keystream-xor form at state `whiteningInit 0x3F`, byte 171. -/
theorem c3_whitening_step_amended_witness :
    ((whitStep ⟨1, 1, 1, 1, 1, 1, 1⟩).s0 = 1 ^^^ 1 ^^^ 1 ∧
      (whitStep ⟨1, 1, 1, 1, 1, 1, 1⟩).s1 = 1 ^^^ 1 ^^^ 1 ∧
      (whitStep ⟨1, 1, 1, 1, 1, 1, 1⟩).s2 = 1 ^^^ 1 ∧
      (whitStep ⟨1, 1, 1, 1, 1, 1, 1⟩).s3 = 1 ^^^ 1 ∧
      (whitStep ⟨1, 1, 1, 1, 1, 1, 1⟩).s4 = 1 ^^^ 1 ^^^ 1) ∧
    (whitGo (whiteningInit 0x25) 0 2 [7, 9]).getD (0 + 1) 0 =
      whitenByte (whitStep^[1] (whiteningInit 0x25)) ([7, 9].getD (0 + 1) 0) ∧
    whitenByte (whiteningInit 0x3F) 171 = 171 ^^^ ksByte (whiteningInit 0x3F) :=
  ⟨c3_whitening_step_amended.1 ⟨1, 1, 1, 1, 1, 1, 1⟩,
   c3_whitening_step_amended.2.1 (whiteningInit 0x25) 0 2 [7, 9] 1 (by omega) (by decide),
   c3_whitening_step_amended.2.2 (whiteningInit 0x3F) 171 (by decide) (by decide)⟩

/-- Claim C4, counterexample: `whitening_encode` does *not* copy the
`length` bytes starting at `offset` — it copies the first `length` bytes.
With `data = [0, 5]`, `len = 1`, `offset = 1`, zeroed 2-byte output and an
initialized state, the whitened output byte at position `offset + 0` is
derived from the output buffer's byte 0, not from `data[1] = 5` as the
claim requires. -/
theorem c4_offset_copy_counterexample :
    (whiteningEncode [0, 5] 1 (whiteningInit 0x3F) 1 [0, 0]).getD 1 0 ≠
      whitenByte (whiteningInit 0x3F) ([0, 5].getD 1 0) := by
  decide

/-- Claim C4 (amended): `whitening_encode` copies the *first* `length`
bytes of the input unchanged into the output buffer (positions
`0 ..< length`), then whitens output positions
`offset ..< offset + length`; hence the whitened output byte at position
`offset + i` is a function of the input byte at that position exactly when
`offset + i < length`, and otherwise of the output buffer's pre-existing
byte there. -/
theorem c4_whitening_copy_amended :
    ∀ (data : List Nat) (len : Nat) (ctx : WhitCtx) (offset : Nat)
      (result : List Nat) (i : Nat),
      len ≤ data.length → offset + len ≤ result.length → i < len →
      (whiteningEncode data len ctx offset result).getD (offset + i) 0 =
        whitenByte (whitStep^[i] ctx)
          (if offset + i < len then data.getD (offset + i) 0
           else result.getD (offset + i) 0) := by
  intro data len ctx offset result i hdata hres hi
  rw [whiteningEncode]
  have htake : (data.take len).length = len := by
    simp [List.length_take]
    omega
  have hcomb : (data.take len ++ result.drop len).length = result.length := by
    simp [List.length_take, List.length_drop]
    omega
  rw [whitGo_getD len ctx offset _ i hi (by rw [hcomb]; omega)]
  congr 1
  by_cases hq : offset + i < len
  · rw [if_pos hq]
    rw [List.getD_eq_getElem?_getD, List.getD_eq_getElem?_getD]
    rw [List.getElem?_append_left (by rw [htake]; omega)]
    rw [List.getElem?_take_of_lt hq]
  · rw [if_neg hq]
    rw [List.getD_eq_getElem?_getD, List.getD_eq_getElem?_getD]
    rw [List.getElem?_append_right (by rw [htake]; omega)]
    rw [htake, List.getElem?_drop]
    rw [show len + (offset + i - len) = offset + i by omega]

/-- Witness for C4 (amended): `data = [3, 7]`, `len = 2`, `offset = 0`,
zeroed output, byte 1. -/
theorem c4_whitening_copy_amended_witness :
    (whiteningEncode [3, 7] 2 (whiteningInit 0x25) 0 [0, 0]).getD (0 + 1) 0 =
      whitenByte (whitStep^[1] (whiteningInit 0x25))
        (if 0 + 1 < 2 then [3, 7].getD (0 + 1) 0 else [0, 0].getD (0 + 1) 0) :=
  c4_whitening_copy_amended [3, 7] 2 (whiteningInit 0x25) 0 [0, 0] 1
    (by decide) (by decide) (by decide)

/-- Claim C5, counterexample: replacing the broadcast advertisement is not
atomic. While `ble_thread` replaces the frame for speed 1 with the frame
for speed 2 (two distinct payloads), the advertising states pass through a
moment where the old handle has been dropped and the new advertisement is
not yet registered — neither frame is established. -/
theorem c5_replacement_gap_counterexample :
    ¬ (∀ st ∈ advertiseStates (some (bleAdvPayload 1)) 2,
        st = some (bleAdvPayload 1) ∨ st = some (bleAdvPayload 2)) := by
  intro h
  have hmem : (none : Option (List Nat)) ∈ advertiseStates (some (bleAdvPayload 1)) 2 := by
    simp [advertiseStates]
  rcases h none hmem with h1 | h1 <;> exact Option.noConfusion h1

/-- Claim C5 (amended): after `ble_thread` accepts a new intensity, the
old advertisement is dropped *before* the new one is registered, so there
is a window with no advertisement on air; but once the send completes the
advertisement on air is exactly the frame of the most recently requested
intensity, and from the moment the old handle is dropped the previously
requested frame never reappears (every later state is either nothing on
air or the new frame). -/
theorem c5_replacement_amended :
    ∀ (prev : Option (List Nat)) (speed : Nat),
      (advertiseStates prev speed).getLast? = some (some (bleAdvPayload speed)) ∧
      ∀ st ∈ (advertiseStates prev speed).drop 1,
        st = none ∨ st = some (bleAdvPayload speed) := by
  intro prev speed
  refine ⟨rfl, ?_⟩
  intro st hst
  simp [advertiseStates] at hst
  rcases hst with h | h
  · exact Or.inl h
  · exact Or.inr h

/-- Witness for C5 (amended) at `prev = frame 3`, `speed = 5`. -/
theorem c5_replacement_amended_witness :
    (advertiseStates (some (bleAdvPayload 3)) 5).getLast? =
      some (some (bleAdvPayload 5)) ∧
    ((none : Option (List Nat)) = none ∨
      (none : Option (List Nat)) = some (bleAdvPayload 5)) :=
  ⟨(c5_replacement_amended (some (bleAdvPayload 3)) 5).1,
   (c5_replacement_amended (some (bleAdvPayload 3)) 5).2 none
     (by simp [advertiseStates])⟩

/-- Claim C7: `send_speed` of the GATT service is debounced — two
consecutive calls with the same level produce no second channel write —
and whenever a write is produced, its payload is the ASCII text
`Vibrate:<level>;` with the level clamped to 0..=20 (on `Nat`,
`min level 20`). -/
theorem c7_send_speed_debounce_and_clamp :
    ∀ (lastSpeed speed : Nat),
      (Gatt.sendSpeed (Gatt.sendSpeed lastSpeed speed).1 speed).2 = none ∧
      (∀ w, (Gatt.sendSpeed lastSpeed speed).2 = some w →
        w = Gatt.strBytes ("Vibrate:" ++ toString (min speed 20) ++ ";")) := by
  intro last s
  constructor
  · by_cases h : s = last
    · simp [Gatt.sendSpeed, h]
    · simp [Gatt.sendSpeed, h]
  · intro w hw
    by_cases h : s = last
    · rw [Gatt.sendSpeed, if_pos h] at hw
      exact Option.noConfusion hw
    · rw [Gatt.sendSpeed, if_neg h] at hw
      have hmax : max 0 (min s 20) = min s 20 := Nat.max_eq_right (Nat.zero_le _)
      rw [hmax] at hw
      exact (Option.some.injEq _ _ ▸ hw).symm

/-- Witness for C7 at `lastSpeed = 0`, `speed = 5`: the second call sends
nothing and the first call's payload is `"Vibrate:5;"`. -/
theorem c7_send_speed_witness :
    (Gatt.sendSpeed (Gatt.sendSpeed 0 5).1 5).2 = none ∧
    Gatt.strBytes "Vibrate:5;" =
      Gatt.strBytes ("Vibrate:" ++ toString (min 5 20) ++ ";") :=
  ⟨(c7_send_speed_debounce_and_clamp 0 5).1,
   (c7_send_speed_debounce_and_clamp 0 5).2 (Gatt.strBytes "Vibrate:5;") (by decide)⟩

/-- Claim C8: for the broadcast transport, the seven command codes of
levels 1..=7 are pairwise distinct, the level-0 "off" code is distinct
from all seven, the eight resulting 11-byte frames are pairwise distinct,
and the manufacturer-data payload placed on air is the 11-byte frame
prefixed with the constant advertising-flags header `0x02 0x01 0x06`. -/
theorem c8_codes_and_frames_distinct :
    ([speedCommand 1, speedCommand 2, speedCommand 3, speedCommand 4,
      speedCommand 5, speedCommand 6, speedCommand 7].Nodup) ∧
    (speedCommand 0 ∉ [speedCommand 1, speedCommand 2, speedCommand 3,
      speedCommand 4, speedCommand 5, speedCommand 6, speedCommand 7]) ∧
    ([bleFrame 0, bleFrame 1, bleFrame 2, bleFrame 3, bleFrame 4,
      bleFrame 5, bleFrame 6, bleFrame 7].Nodup) ∧
    (∀ speed : Nat, bleAdvPayload speed = [0x02, 0x01, 0x06] ++ bleFrame speed) :=
  ⟨by decide, by decide, by decide, fun _ => rfl⟩

/-- Claim C10: at the broadcast transport's send-speed interface, every
level outside 1..=7 — level 0 and every value from 8 to 255 — selects the
fixed "off" command code `[0xE5, 0x00, 0x00]`, producing the same payload
as level 0; out-of-range high levels are mapped to off, not clamped to
level 7 (the level-7 payload differs from the off payload). -/
theorem c10_out_of_range_level_is_off :
    ∀ speed : Nat, speed < 256 → speed = 0 ∨ 8 ≤ speed →
      speedCommand speed = Command.Raw 0xE5 0x00 0x00 ∧
      bleAdvPayload speed = bleAdvPayload 0 ∧
      bleAdvPayload 7 ≠ bleAdvPayload 0 := by
  intro s hlt h
  have hcmd : speedCommand s = Command.Raw 0xE5 0x00 0x00 := by
    rcases h with rfl | h8
    · rfl
    · obtain ⟨k, rfl⟩ : ∃ k, s = k + 8 := ⟨s - 8, by omega⟩
      rfl
  refine ⟨hcmd, ?_, by decide⟩
  rw [bleAdvPayload, bleAdvPayload, bleFrame, bleFrame, hcmd]
  rfl

/-- Witness for C10 at level 200. -/
theorem c10_out_of_range_level_is_off_witness :
    speedCommand 200 = Command.Raw 0xE5 0x00 0x00 ∧
    bleAdvPayload 200 = bleAdvPayload 0 ∧
    bleAdvPayload 7 ≠ bleAdvPayload 0 :=
  c10_out_of_range_level_is_off 200 (by omega) (Or.inr (by omega))

/-- Claim C6, counterexample: processing `Connect("B")` while the
peripheral at address "A" is connected does *not* disconnect "A" first.
The emitted messages are exactly `DeviceConnecting "B"`,
`DeviceConnected "B"` — no `DeviceDisconnected "A"` teardown is delivered
before (or after) `DeviceConnecting "B"`. -/
theorem c6_connect_counterexample :
    (processCommand (fun _ => true) ["B"] (some "A") (BleCommand.Connect "B")).2 =
      [BleMessage.DeviceConnecting "B", BleMessage.DeviceConnected "B"] ∧
    BleMessage.DeviceDisconnected "A" ∉
      (processCommand (fun _ => true) ["B"] (some "A") (BleCommand.Connect "B")).2 := by
  constructor
  · rfl
  · intro hmem
    rw [show (processCommand (fun _ => true) ["B"] (some "A")
        (BleCommand.Connect "B")).2 =
      [BleMessage.DeviceConnecting "B", BleMessage.DeviceConnected "B"] from rfl] at hmem
    simp at hmem

/-- Claim C6 (amended): when the GATT actor processes `Connect(B)` while a
peripheral at address A is connected, it emits no
`DeviceDisconnected` event at all (for any address — the stored handle is
silently replaced), and for every matching peripheral it emits
`DeviceConnecting(B)` with no teardown before it. -/
theorem c6_connect_amended :
    ∀ (ok : String → Bool) (ps : List String) (a b : String),
      (∀ x, BleMessage.DeviceDisconnected x ∉
        (processCommand ok ps (some a) (BleCommand.Connect b)).2) ∧
      (b ∈ ps → BleMessage.DeviceConnecting b ∈
        (processCommand ok ps (some a) (BleCommand.Connect b)).2) := by
  intro ok ps a b
  constructor
  · intro x
    exact processConnect_no_disconnect ps ok b (some a) [] (by simp) x
  · intro hb
    exact processConnect_emits_connecting ps ok b (some a) [] hb

/-- Witness for C6 (amended) with peripherals `["B", "C"]`, connected "A",
connecting to "B". -/
theorem c6_connect_amended_witness :
    (BleMessage.DeviceDisconnected "A" ∉
      (processCommand (fun _ => true) ["B", "C"] (some "A")
        (BleCommand.Connect "B")).2) ∧
    BleMessage.DeviceConnecting "B" ∈
      (processCommand (fun _ => true) ["B", "C"] (some "A")
        (BleCommand.Connect "B")).2 :=
  ⟨(c6_connect_amended (fun _ => true) ["B", "C"] "A" "B").1 "A",
   (c6_connect_amended (fun _ => true) ["B", "C"] "A" "B").2 (by simp)⟩

/-- Claim C9: `invert_8` is an involution on bytes and `invert_16` is an
involution on 16-bit words — bit-order reversal composed with itself is
the identity on the respective ranges. -/
theorem c9_invert_involution :
    (∀ x : Nat, x < 256 → invert8 (invert8 x) = x) ∧
    (∀ w : Nat, w < 65536 → invert16 (invert16 w) = w) := by
  have h8 : ∀ x : Fin 256, invert8 (invert8 x.val) = x.val := by
    set_option maxRecDepth 4000 in decide
  have inv8 : ∀ x : Nat, x < 256 → invert8 (invert8 x) = x := by
    intro x hx
    exact h8 ⟨x, hx⟩
  refine ⟨inv8, ?_⟩
  intro w hw
  have hlo : w % 256 < 256 := by omega
  have hhi : w / 256 < 256 := by omega
  rw [invert16_decompose w]
  rw [invert8_mod w]
  rw [invert16_decompose]
  have e1 : (invert8 (w % 256) * 256 + invert8 (w / 256)) % 256 = invert8 (w / 256) := by
    have := invert8_lt (w / 256)
    omega
  have e2 : (invert8 (w % 256) * 256 + invert8 (w / 256)) / 256 = invert8 (w % 256) := by
    have := invert8_lt (w / 256)
    omega
  rw [invert8_mod (invert8 (w % 256) * 256 + invert8 (w / 256))]
  rw [e1]
  rw [e2]
  rw [inv8 (w / 256) hhi]
  rw [show invert8 (invert8 (w % 256)) = w % 256 from inv8 (w % 256) hlo]
  omega

/-- Witness for C9 at `x = 0xAB` and `w = 0xBEEF`. -/
theorem c9_invert_involution_witness :
    invert8 (invert8 0xAB) = 0xAB ∧ invert16 (invert16 0xBEEF) = 0xBEEF :=
  ⟨c9_invert_involution.1 0xAB (by omega), c9_invert_involution.2 0xBEEF (by omega)⟩

/-- Claim C2: for every 5-byte address and byte sequence, `check_crc16`
computes exactly the CRC the specification describes on a 16-bit register:
`crc = 0xFFFF`; address bytes fed in reverse order, each xored into the
high byte followed by 8 shift-and-conditional-xor rounds with polynomial
0x1021; data bytes fed forward, each bit-reversed by `invert_8` first;
finally the 16-bit result is bit-reversed by `invert_16`, complemented and
masked to 16 bits. (The code accumulates in a `u32`; the theorem shows the
excess high bits never influence the result.) -/
theorem c2_crc16_matches_spec :
    ∀ (addr data : List Nat), addr.length = 5 → (∀ b ∈ addr, b < 256) →
      (∀ b ∈ data, b < 256) →
      checkCrc16 addr data = Spec.crc16Spec addr data := by
  intro addr data _ haddr _
  have hA : (addr.reverse.foldl crcFeed 0xFFFF) % 65536 =
      addr.reverse.foldl Spec.crcFeedSpec 0xFFFF := by
    have h := Spec.crcFold_addr_congr addr.reverse 0xFFFF
      (fun b hb => haddr b (List.mem_reverse.mp hb))
    rw [show (0xFFFF : Nat) % 65536 = 0xFFFF by norm_num] at h
    exact h
  have hD : (data.foldl (fun crc b => crcFeed crc (invert8 b))
        (addr.reverse.foldl crcFeed 0xFFFF)) % 65536 =
      data.foldl (fun crc b => Spec.crcFeedSpec crc (invert8 b))
        (addr.reverse.foldl Spec.crcFeedSpec 0xFFFF) := by
    rw [Spec.crcFold_data_congr, hA]
  simp only [checkCrc16, Spec.crc16Spec]
  rw [hD]

/-- Witness for C2 at the fixed device address and the 3-byte "off"
payload. -/
theorem c2_crc16_matches_spec_witness :
    checkCrc16 [0x77, 0x62, 0x4D, 0x53, 0x45] [0x00, 0x00, 0x00] =
      Spec.crc16Spec [0x77, 0x62, 0x4D, 0x53, 0x45] [0x00, 0x00, 0x00] :=
  c2_crc16_matches_spec [0x77, 0x62, 0x4D, 0x53, 0x45] [0x00, 0x00, 0x00]
    (by decide) (by decide) (by decide)

namespace BleUtil

theorem set_in_suffix (n : Nat) (l : List Nat) (i v : Nat) (h : n ≤ i) :
    (List.replicate n (0:Nat) ++ l).set i v =
      List.replicate n 0 ++ l.set (i - n) v := by
  rw [List.set_append_right _ _ (by simpa using h)]
  rw [List.length_replicate]

theorem whiteningEncode_length (data : List Nat) (len : Nat) (ctx : WhitCtx)
    (offset : Nat) (result : List Nat) :
    (whiteningEncode data len ctx offset result).length =
      min len data.length + (result.length - len) := by
  rw [whiteningEncode, whitGo_length]
  simp

end BleUtil

/-- Claim C1: `get_rf_payload` builds its output exactly as the
specification describes. For every 5-byte address and non-empty data, the
working buffer holds the preamble constants 0x71/0x0F/0x55 at offsets
0x0F..0x11, the address reversed at offset 0x12, the data reversed right
after the address, the 3 + 5 preamble+address bytes from offset 0x0F
bit-inverted, and the CRC16 appended as two little-endian bytes right
after the data; one whitening pass seeded 0x3F is applied from offset 0x12
over `2 + 5 + N` bytes and one seeded 0x25 to the whole buffer from offset
0; the two whitened buffers are xored byte-for-byte and bytes 0x0F..0x1A
(exactly 11 bytes) of the xor are returned. -/
theorem c1_rf_payload_layout :
    ∀ (a0 a1 a2 a3 a4 : Nat) (data : List Nat), 0 < data.length →
      getRfPayload [a0, a1, a2, a3, a4] data =
        Spec.rfPayloadSpec [a0, a1, a2, a3, a4] data ∧
      (getRfPayload [a0, a1, a2, a3, a4] data).length = 11 := by
  intro a0 a1 a2 a3 a4 data hN
  have hunfold : getRfPayload [a0, a1, a2, a3, a4] data =
      ((List.zipWith (fun a b => a ^^^ b)
        (whiteningEncode
          (((invertLoop 0x0F (3 + 5)
              (writeRevLoop (0x12 + 5 + data.length) data 0
                (writeRevLoop (0x12 + 5) [a0, a1, a2, a3, a4] 0
                  ((((List.replicate (0x12 + 5 + data.length + 0x02) 0).set 0x0F 0x71).set
                      0x10 0x0F).set 0x11 0x55)))).set (0x12 + 5 + data.length)
            (checkCrc16 [a0, a1, a2, a3, a4] data &&& 0xFF)).set
          (0x12 + 5 + data.length + 1)
          ((checkCrc16 [a0, a1, a2, a3, a4] data >>> 8) &&& 0xFF))
          (0x12 + 5 + data.length + 0x02) (whiteningInit 0x25) 0x00
          (List.replicate (0x12 + 5 + data.length + 0x02) 0))
        (whiteningEncode
          (((invertLoop 0x0F (3 + 5)
              (writeRevLoop (0x12 + 5 + data.length) data 0
                (writeRevLoop (0x12 + 5) [a0, a1, a2, a3, a4] 0
                  ((((List.replicate (0x12 + 5 + data.length + 0x02) 0).set 0x0F 0x71).set
                      0x10 0x0F).set 0x11 0x55)))).set (0x12 + 5 + data.length)
            (checkCrc16 [a0, a1, a2, a3, a4] data &&& 0xFF)).set
          (0x12 + 5 + data.length + 1)
          ((checkCrc16 [a0, a1, a2, a3, a4] data >>> 8) &&& 0xFF))
          (2 + 5 + data.length) (whiteningInit 0x3F) 0x12
          (List.replicate (0x12 + 5 + data.length + 0x02) 0))).drop 0x0F).take 11 := rfl
  have e0 : (((List.replicate (0x12 + 5 + data.length + 0x02) (0:Nat)).set 0x0F 0x71).set
        0x10 0x0F).set 0x11 0x55 =
      (List.replicate 15 0 ++ [0x71, 0x0F, 0x55]) ++
        ([0, 0, 0, 0, 0] ++ (List.replicate data.length 0 ++ [0, 0])) := by
    rw [show 0x12 + 5 + data.length + 0x02 = 15 + (3 + (5 + (data.length + 2))) by omega]
    rw [List.replicate_add 15 (3 + (5 + (data.length + 2))) (0:Nat)]
    rw [List.replicate_add 3 (5 + (data.length + 2)) (0:Nat)]
    rw [List.replicate_add 5 (data.length + 2) (0:Nat)]
    rw [List.replicate_add data.length 2 (0:Nat)]
    rw [set_in_suffix 15 _ 0x0F 0x71 (by omega)]
    rw [set_in_suffix 15 _ 0x10 0x0F (by omega)]
    rw [set_in_suffix 15 _ 0x11 0x55 (by omega)]
    rw [show (0x0F - 15 : Nat) = 0 by norm_num, show (0x10 - 15 : Nat) = 1 by norm_num,
      show (0x11 - 15 : Nat) = 2 by norm_num]
    rw [show (List.replicate 3 (0:Nat)) = [0, 0, 0] from rfl,
      show (List.replicate 5 (0:Nat)) = [0, 0, 0, 0, 0] from rfl,
      show (List.replicate 2 (0:Nat)) = [0, 0] from rfl]
    simp only [List.cons_append, List.nil_append, List.set_cons_zero, List.set_cons_succ]
    simp [List.append_assoc]
  have e1 : (List.replicate 15 (0:Nat) ++ [0x71, 0x0F, 0x55]) ++
        ([0, 0, 0, 0, 0] ++ (List.replicate data.length 0 ++ [0, 0])) =
      (List.replicate 15 0 ++ [0x71, 0x0F, 0x55]) ++ [0, 0, 0, 0, 0] ++
        (List.replicate data.length 0 ++ [0, 0]) := by
    simp [List.append_assoc]
  have eA : writeRevLoop (0x12 + 5) [a0, a1, a2, a3, a4] 0
        ((List.replicate 15 0 ++ [0x71, 0x0F, 0x55]) ++ [0, 0, 0, 0, 0] ++
          (List.replicate data.length 0 ++ [0, 0])) =
      (List.replicate 15 0 ++ [0x71, 0x0F, 0x55]) ++ [a4, a3, a2, a1, a0] ++
        (List.replicate data.length 0 ++ [0, 0]) := by
    have h := writeRevLoop_spec [a0, a1, a2, a3, a4] (0x12 + 5) 0
      (List.replicate 15 0 ++ [0x71, 0x0F, 0x55]) [0, 0, 0, 0, 0]
      (List.replicate data.length 0 ++ [0, 0]) (by simp) (by simp)
    simpa using h
  have e2 : (List.replicate 15 (0:Nat) ++ [0x71, 0x0F, 0x55]) ++ [a4, a3, a2, a1, a0] ++
        (List.replicate data.length 0 ++ [0, 0]) =
      ((List.replicate 15 0 ++ [0x71, 0x0F, 0x55]) ++ [a4, a3, a2, a1, a0]) ++
        List.replicate data.length 0 ++ [0, 0] := by
    simp [List.append_assoc]
  have eD : writeRevLoop (0x12 + 5 + data.length) data 0
        (((List.replicate 15 0 ++ [0x71, 0x0F, 0x55]) ++ [a4, a3, a2, a1, a0]) ++
          List.replicate data.length 0 ++ [0, 0]) =
      ((List.replicate 15 0 ++ [0x71, 0x0F, 0x55]) ++ [a4, a3, a2, a1, a0]) ++
        data.reverse ++ [0, 0] := by
    have h := writeRevLoop_spec data (0x12 + 5 + data.length) 0
      ((List.replicate 15 0 ++ [0x71, 0x0F, 0x55]) ++ [a4, a3, a2, a1, a0])
      (List.replicate data.length 0) [0, 0] (by simp) (by simp)
    exact h
  have e3 : ((List.replicate 15 (0:Nat) ++ [0x71, 0x0F, 0x55]) ++ [a4, a3, a2, a1, a0]) ++
        data.reverse ++ [0, 0] =
      List.replicate 15 0 ++ (([0x71, 0x0F, 0x55] ++ [a4, a3, a2, a1, a0]) ++
        (data.reverse ++ [0, 0])) := by
    simp [List.append_assoc]
  have eI : invertLoop 0x0F (3 + 5)
        (List.replicate 15 0 ++ (([0x71, 0x0F, 0x55] ++ [a4, a3, a2, a1, a0]) ++
          (data.reverse ++ [0, 0]))) =
      List.replicate 15 0 ++
        (([0x71, 0x0F, 0x55] ++ [a4, a3, a2, a1, a0]).map invert8 ++
          (data.reverse ++ [0, 0])) := by
    have h := invertLoop_spec (3 + 5) (List.replicate 15 0)
      ([0x71, 0x0F, 0x55] ++ [a4, a3, a2, a1, a0]) (data.reverse ++ [0, 0]) (by simp)
    rw [show (List.replicate 15 (0:Nat)).length = 0x0F by simp] at h
    simpa [List.append_assoc] using h
  have e4 : List.replicate 15 (0:Nat) ++
        (([0x71, 0x0F, 0x55] ++ [a4, a3, a2, a1, a0]).map invert8 ++
          (data.reverse ++ [0, 0])) =
      (List.replicate 15 0 ++
        (([0x71, 0x0F, 0x55] ++ [a4, a3, a2, a1, a0]).map invert8 ++ data.reverse)) ++
        [0, 0] := by
    simp [List.append_assoc]
  have hplen : (List.replicate 15 (0:Nat) ++
      (([0x71, 0x0F, 0x55] ++ [a4, a3, a2, a1, a0]).map invert8 ++ data.reverse)).length =
      0x12 + 5 + data.length := by
    simp
    omega
  have eC1 : ((List.replicate 15 (0:Nat) ++
        (([0x71, 0x0F, 0x55] ++ [a4, a3, a2, a1, a0]).map invert8 ++ data.reverse)) ++
        [0, 0]).set (0x12 + 5 + data.length)
        (checkCrc16 [a0, a1, a2, a3, a4] data &&& 0xFF) =
      (List.replicate 15 0 ++
        (([0x71, 0x0F, 0x55] ++ [a4, a3, a2, a1, a0]).map invert8 ++ data.reverse)) ++
        [checkCrc16 [a0, a1, a2, a3, a4] data &&& 0xFF, 0] := by
    rw [List.set_append_right _ _ (by rw [hplen])]
    rw [hplen, Nat.sub_self]
    rfl
  have eC2 : ((List.replicate 15 (0:Nat) ++
        (([0x71, 0x0F, 0x55] ++ [a4, a3, a2, a1, a0]).map invert8 ++ data.reverse)) ++
        [checkCrc16 [a0, a1, a2, a3, a4] data &&& 0xFF, 0]).set
        (0x12 + 5 + data.length + 1)
        ((checkCrc16 [a0, a1, a2, a3, a4] data >>> 8) &&& 0xFF) =
      (List.replicate 15 0 ++
        (([0x71, 0x0F, 0x55] ++ [a4, a3, a2, a1, a0]).map invert8 ++ data.reverse)) ++
        [checkCrc16 [a0, a1, a2, a3, a4] data &&& 0xFF,
          (checkCrc16 [a0, a1, a2, a3, a4] data >>> 8) &&& 0xFF] := by
    rw [List.set_append_right _ _ (by rw [hplen]; omega)]
    rw [hplen, show 0x12 + 5 + data.length + 1 - (0x12 + 5 + data.length) = 1 by omega]
    rfl
  have e5 : (List.replicate 15 (0:Nat) ++
        (([0x71, 0x0F, 0x55] ++ [a4, a3, a2, a1, a0]).map invert8 ++ data.reverse)) ++
        [checkCrc16 [a0, a1, a2, a3, a4] data &&& 0xFF,
          (checkCrc16 [a0, a1, a2, a3, a4] data >>> 8) &&& 0xFF] =
      List.replicate 15 0 ++
      ([0x71, 0x0F, 0x55] ++ [a4, a3, a2, a1, a0]).map invert8 ++
      data.reverse ++
      [checkCrc16 [a0, a1, a2, a3, a4] data &&& 0xFF,
        (checkCrc16 [a0, a1, a2, a3, a4] data >>> 8) &&& 0xFF] := by
    simp [List.append_assoc]
  have hbuf : ((invertLoop 0x0F (3 + 5)
              (writeRevLoop (0x12 + 5 + data.length) data 0
                (writeRevLoop (0x12 + 5) [a0, a1, a2, a3, a4] 0
                  ((((List.replicate (0x12 + 5 + data.length + 0x02) 0).set 0x0F 0x71).set
                      0x10 0x0F).set 0x11 0x55)))).set (0x12 + 5 + data.length)
            (checkCrc16 [a0, a1, a2, a3, a4] data &&& 0xFF)).set
          (0x12 + 5 + data.length + 1)
          ((checkCrc16 [a0, a1, a2, a3, a4] data >>> 8) &&& 0xFF) =
      List.replicate 15 0 ++
      ([0x71, 0x0F, 0x55] ++ [a4, a3, a2, a1, a0]).map invert8 ++
      data.reverse ++
      [checkCrc16 [a0, a1, a2, a3, a4] data &&& 0xFF,
        (checkCrc16 [a0, a1, a2, a3, a4] data >>> 8) &&& 0xFF] := by
    rw [e0, e1, eA, e2, eD, e3, eI, e4, eC1, eC2, e5]
  have hlenS : (List.replicate 15 0 ++
      ([0x71, 0x0F, 0x55] ++ [a4, a3, a2, a1, a0]).map invert8 ++
      data.reverse ++
      [checkCrc16 [a0, a1, a2, a3, a4] data &&& 0xFF,
        (checkCrc16 [a0, a1, a2, a3, a4] data >>> 8) &&& 0xFF]).length = 0x12 + 5 + data.length + 0x02 := by
    simp
    omega
  have hspec : Spec.rfPayloadSpec [a0, a1, a2, a3, a4] data =
      ((List.zipWith (fun a b => a ^^^ b)
        (whiteningEncode
          (List.replicate 15 0 ++
      ([0x71, 0x0F, 0x55] ++ [a4, a3, a2, a1, a0]).map invert8 ++
      data.reverse ++
      [checkCrc16 [a0, a1, a2, a3, a4] data &&& 0xFF,
        (checkCrc16 [a0, a1, a2, a3, a4] data >>> 8) &&& 0xFF])
          (0x12 + 5 + data.length + 0x02) (whiteningInit 0x25) 0x00
          (List.replicate (0x12 + 5 + data.length + 0x02) 0))
        (whiteningEncode
          (List.replicate 15 0 ++
      ([0x71, 0x0F, 0x55] ++ [a4, a3, a2, a1, a0]).map invert8 ++
      data.reverse ++
      [checkCrc16 [a0, a1, a2, a3, a4] data &&& 0xFF,
        (checkCrc16 [a0, a1, a2, a3, a4] data >>> 8) &&& 0xFF])
          (2 + 5 + data.length) (whiteningInit 0x3F) 0x12
          (List.replicate (0x12 + 5 + data.length + 0x02) 0))).drop 0x0F).take 11 := by
    simp only [Spec.rfPayloadSpec]
    rw [show ([a0, a1, a2, a3, a4] : List Nat).reverse = [a4, a3, a2, a1, a0] from rfl]
    rw [show (List.length [a0, a1, a2, a3, a4] : Nat) = 5 from rfl]
    rw [hlenS]
  constructor
  · rw [hunfold, hbuf, hspec]
  · rw [hunfold, hbuf]
    rw [List.length_take, List.length_drop, List.length_zipWith,
      whiteningEncode_length, whiteningEncode_length, hlenS]
    simp
    omega

/-- Witness for C1 at the fixed device address and 1-byte data `[0]`. -/
theorem c1_rf_payload_layout_witness :
    getRfPayload [0x77, 0x62, 0x4D, 0x53, 0x45] [0] =
      Spec.rfPayloadSpec [0x77, 0x62, 0x4D, 0x53, 0x45] [0] ∧
    (getRfPayload [0x77, 0x62, 0x4D, 0x53, 0x45] [0]).length = 11 :=
  c1_rf_payload_layout 0x77 0x62 0x4D 0x53 0x45 [0] (by decide)
